import Mathlib

/- Verification of the auto-scaffold template engine: a shallow embedding of
   the pattern parser, path matcher, specificity resolver, scope handling,
   template-store merge and the file-application helpers, translated from the
   TypeScript sources (src/src/patterns.ts, src/src/core.ts and the current
   core in src/unnamed/part_006), together with theorems about them. -/

namespace AutoScaffold

/-- Segment kinds of a template path pattern (the closed sum behind the
    `type` field of `PatternSegment` in src/src/patterns.ts). -/
inductive SegKind where
  | static
  | param
  | spread
deriving DecidableEq, Repr

/-- A parsed segment of a template path pattern (src/src/patterns.ts
    `PatternSegment`). -/
structure PatternSegment where
  type : SegKind
  value : String
deriving DecidableEq, Repr

/-- Parsed representation of a template (the `ParsedTemplate` of the current
    patterns module, as used by src/unnamed/part_006 and its tests: directory
    segments, filename parts, literal extension, the original template path,
    the owning scaffold directory and the scope metadata). -/
structure ParsedTemplate where
  segments : List PatternSegment
  filename : List PatternSegment
  extension : String
  templatePath : String
  scaffoldDir : String
  scopePrefix : String
  scopeDepth : Nat
deriving DecidableEq, Repr

/-! ### Path helpers (pathe: extname, dirname, basename; JS String.split) -/

/-- JS `String.prototype.startsWith`, over the characters. -/
def strStartsWith (s t : String) : Bool := t.data.isPrefixOf s.data

/-- JS `String.prototype.endsWith`, over the characters. -/
def strEndsWith (s t : String) : Bool := t.data.isSuffixOf s.data

/-- JS `String.prototype.slice(n)` for a nonnegative count: drop characters
    from the front. -/
def strDrop (s : String) (n : Nat) : String := (s.data.drop n).asString

/-- JS `String.prototype.slice(0, -n)`: drop characters from the back. -/
def strDropRight (s : String) (n : Nat) : String :=
  (s.data.take (s.data.length - n)).asString

/-- JS `Array.prototype.join('/')`. -/
def joinSlash : List String → String
  | [] => ""
  | [s] => s
  | s :: rest => s ++ "/" ++ joinSlash rest

/-- JS `String.prototype.split` on the path separator, over char lists. -/
def splitSlash : List Char → List (List Char)
  | [] => [[]]
  | c :: cs =>
    match splitSlash cs with
    | [] => [[]]
    | g :: gs => if c = '/' then [] :: g :: gs else (c :: g) :: gs

/-- `String.split('/')` at the string level. -/
def splitSlashStr (s : String) : List String :=
  (splitSlash s.data).map List.asString

/-- Split a char list at its last dot: `cs = before ++ '.' :: after` where
    `after` holds no dot. -/
def splitLastDot : List Char → Option (List Char × List Char)
  | [] => none
  | c :: cs =>
    match splitLastDot cs with
    | some (b, a) => some (c :: b, a)
    | none => if c = '.' then some ([], cs) else none

/-- pathe `extname`: the suffix from the last dot, provided some character
    precedes the dot and no separator follows it. -/
def extname (p : String) : String :=
  match splitLastDot p.data with
  | none => ""
  | some (before, after) =>
    if before = [] then ""
    else if after.contains '/' then ""
    else ('.' :: after).asString

/-- pathe `dirname`: drop one trailing separator, split on the separator,
    drop the final component and rejoin; empty results become the root or
    the current-directory marker. -/
def dirname (p : String) : String :=
  let q := if strEndsWith p "/" then strDropRight p 1 else p
  let segs := (splitSlash q.data).dropLast
  let j := joinSlash (segs.map List.asString)
  if j = "" then (if strStartsWith p "/" then "/" else ".") else j

/-- pathe `basename` with an extension argument: the last path component,
    with the extension removed when it is a nonempty suffix. -/
def basename (p ext : String) : String :=
  let last := ((splitSlash p.data).map List.asString).getLastD ""
  if ext ≠ "" ∧ strEndsWith last ext then strDropRight last ext.data.length
  else last

/-! ### Pattern parser (src/src/patterns.ts parseSegment / parseTemplatePath)

The source scans each component with the JS regex for bracket tokens: a token
runs from a left bracket to the first right bracket after it, with nonempty
inner text; an optional three-dot prefix marks a spread. -/

/-- Split a char list at the first right bracket: `cs = inner ++ ']' :: rest`
    with `inner` free of right brackets. -/
def takeUntilRB : List Char → Option (List Char × List Char)
  | [] => none
  | c :: cs =>
    if c = ']' then some ([], cs)
    else
      match takeUntilRB cs with
      | some (inner, rest) => some (c :: inner, rest)
      | none => none

/-- Find the first bracket token in a component, as the JS regex scan does.
    Returns the static text before the token, the token's inner text and the
    remainder after the token. An empty pair of brackets is not a token; the
    scan resumes just after its left bracket, which becomes static text. -/
def firstTok : List Char → Option (List Char × List Char × List Char)
  | [] => none
  | c :: cs =>
    if c = '[' then
      match takeUntilRB cs with
      | some (inner, rest) =>
        if inner = [] then
          match firstTok cs with
          | some (b, i, r) => some (c :: b, i, r)
          | none => none
        else some ([], inner, rest)
      | none => none
    else
      match firstTok cs with
      | some (b, i, r) => some (c :: b, i, r)
      | none => none

/-- Build the segment for a bracket token from its inner text, as the source
    does: a three-dot prefix marks a spread and the captured name drops the
    dots, except that inner text of exactly three dots backtracks in the JS
    regex to a capture of the dots themselves, still flagged spread. -/
def tokSeg (inner : List Char) : PatternSegment :=
  if ['.', '.', '.'].isPrefixOf inner then
    if inner.drop 3 = [] then ⟨.spread, inner.asString⟩
    else ⟨.spread, (inner.drop 3).asString⟩
  else ⟨.param, inner.asString⟩

/-- The token scan of src/src/patterns.ts parseSegment: alternating static
    runs and bracket tokens, in order. The scan consumes characters past
    each found token, so the input length bounds the recursion; the fuel
    argument carries that bound to keep the recursion structural, and the
    zero-fuel clause can only be reached by the empty input, which it sends
    to the same result as a failed token search. -/
def goParseF : Nat → List Char → List PatternSegment
  | 0, cs => if cs = [] then [] else [⟨.static, cs.asString⟩]
  | fuel + 1, cs =>
    match firstTok cs with
    | none => if cs = [] then [] else [⟨.static, cs.asString⟩]
    | some (b, i, r) =>
      (if b = [] then [] else [⟨.static, b.asString⟩]) ++ tokSeg i :: goParseF fuel r

/-- The token scan at its adequate fuel. -/
def goParse (cs : List Char) : List PatternSegment := goParseF cs.length cs

/-- src/src/patterns.ts `parseSegment`: parse one component (directory or
    filename stem) into pattern segments; a component with no token is a
    single static segment. -/
def parseSegment (segment : String) : List PatternSegment :=
  let parts := goParse segment.data
  if parts = [] then [⟨.static, segment⟩] else parts

/-- `parseTemplatePath` of the current patterns module: the parsing logic of
    src/src/patterns.ts (extension split, directory components, filename
    stem), with the scaffold directory and scope metadata attached as the
    current core (src/unnamed/part_006) and its tests show. -/
def parseTemplatePath (relativePath scaffoldDir scopePrefix : String)
    (scopeDepth : Nat) : ParsedTemplate :=
  let ext := extname relativePath
  let dir := dirname relativePath
  let file := basename relativePath ext
  let segments :=
    if dir ≠ "" ∧ dir ≠ "." then
      (splitSlashStr dir).flatMap (fun seg => parseSegment seg)
    else []
  { segments := segments
    filename := parseSegment file
    extension := ext
    templatePath := relativePath
    scaffoldDir := scaffoldDir
    scopePrefix := scopePrefix
    scopeDepth := scopeDepth }

/-! ### Capture maps (JS plain objects: string keys in insertion order) -/

/-- A JS capture object: keys in insertion order; a `none` value models an
    `undefined` stored by an out-of-bounds array read. -/
abbrev Captures := List (String × Option String)

/-- JS property assignment `obj[k] = v`: overwrite in place or append. -/
def objSet (m : Captures) (k : String) (v : Option String) : Captures :=
  if m.any (fun e => e.1 = k) then m.map (fun e => if e.1 = k then (k, v) else e)
  else m ++ [(k, v)]

/-- JS object spread `{ ...a, ...b }`: entries of `b` assigned over `a`. -/
def objMerge (a b : Captures) : Captures :=
  b.foldl (fun acc e => objSet acc e.1 e.2) a

/-! ### The filename regex (src/src/patterns.ts matchFilename)

The source compiles the filename parts into an anchored JS regex: escaped
literals for static parts, a greedy no-separator group for a param, a greedy
any-character group for a spread. The model below is that regex's
backtracking search: group candidates are tried longest first, and the first
overall success wins (newlines, which the JS dot excludes, do not occur in
path components). -/

/-- One compiled piece of the filename regex. -/
inductive RePart where
  | lit : String → RePart
  | param : RePart
  | spread : RePart
deriving DecidableEq, Repr

/-- Compile filename pattern parts to regex pieces, as matchFilename does. -/
def toReParts (pattern : List PatternSegment) : List RePart :=
  pattern.map fun part =>
    match part.type with
    | .static => .lit part.value
    | .param => .param
    | .spread => .spread

/-- Length of the maximal leading run without a separator (the most a
    no-separator group can consume). -/
def nonSlashRun : List Char → Nat
  | [] => 0
  | c :: cs => if c = '/' then 0 else nonSlashRun cs + 1

/-- Try group lengths from `k` down to 1, as a greedy group backtracks. -/
def tryLens (f : List Char → Option (List String)) (cs : List Char) :
    Nat → Option (List String)
  | 0 => none
  | k + 1 =>
    match f (cs.drop (k + 1)) with
    | some caps => some ((cs.take (k + 1)).asString :: caps)
    | none => tryLens f cs k

/-- Backtracking matcher for the anchored regex: returns the group captures
    of the first (JS-order) successful match. -/
def reMatch : List RePart → List Char → Option (List String)
  | [], cs => if cs = [] then some [] else none
  | .lit s :: rest, cs =>
    if s.data.isPrefixOf cs then reMatch rest (cs.drop s.data.length) else none
  | .param :: rest, cs => tryLens (reMatch rest) cs (nonSlashRun cs)
  | .spread :: rest, cs => tryLens (reMatch rest) cs cs.length

/-- Assign the group captures to their parameter names in order, as the
    loop in matchFilename does (a duplicate name is overwritten). -/
def zipAssign : List PatternSegment → List String → Captures → Captures
  | n :: ns, c :: cs, acc => zipAssign ns cs (objSet acc n.value (some c))
  | _, _, acc => acc

/-- src/src/patterns.ts `matchFilename`: match a filename stem against the
    filename pattern parts via the compiled regex; named captures or none. -/
def matchFilename (filename : String) (pattern : List PatternSegment) :
    Option Captures :=
  match reMatch (toReParts pattern) filename.data with
  | none => none
  | some caps =>
    some (zipAssign (pattern.filter (fun p => p.type ≠ SegKind.static)) caps [])

/-! ### The path matcher (src/src/patterns.ts matchFile) -/

/-- JS array indexing: `undefined` (none) outside the bounds. -/
def jsGet (l : List String) (i : Int) : Option String :=
  if 0 ≤ i then l[i.toNat]? else none

/-- JS `Array.prototype.slice`, including negative-index clamping. -/
def jsSlice (l : List String) (start stop : Int) : List String :=
  let len : Int := l.length
  let s := if start < 0 then max (len + start) 0 else min start len
  let e := if stop < 0 then max (len + stop) 0 else min stop len
  (l.take e.toNat).drop s.toNat

/-- The directory-segment walk of matchFile: the loop over
    `template.segments` with the path index and the capture object as state.
    The path index is an integer because the spread step sets it to the
    segment count minus the count of later statics, which can move it
    backwards or below zero exactly as in the source; a static or param step
    at a negative index reads `undefined`. The spread step is written once
    because both branches of the source's spread case perform the same
    slice, capture and index update. -/
def walkSegments : List PatternSegment → List String → Int → Captures →
    Option (Int × Captures)
  | [], _, pathIdx, captures => some (pathIdx, captures)
  | seg :: rest, pathSegments, pathIdx, captures =>
    match seg.type with
    | .static =>
      if jsGet pathSegments pathIdx = some seg.value then
        walkSegments rest pathSegments (pathIdx + 1) captures
      else none
    | .param =>
      if pathIdx ≥ (pathSegments.length : Int) then none
      else
        walkSegments rest pathSegments (pathIdx + 1)
          (objSet captures seg.value (jsGet pathSegments pathIdx))
    | .spread =>
      let staticCount := (rest.filter (fun p => p.type = SegKind.static)).length
      let nextIdx : Int := (pathSegments.length : Int) - staticCount
      let consumed := jsSlice pathSegments pathIdx nextIdx
      walkSegments rest pathSegments nextIdx
        (objSet captures seg.value (some (joinSlash consumed)))

/-- JS `String.prototype.includes`: the argument occurs contiguously. -/
def jsIncludes (s sub : String) : Bool :=
  (List.range (s.data.length + 1)).any
    (fun i => sub.data.isPrefixOf (s.data.drop i))

/-- src/src/patterns.ts `matchFile`: match a concrete file path against a
    parsed template pattern; captured values or none. -/
def matchFileCore (filePath : String) (template : ParsedTemplate) :
    Option Captures :=
  let ext := extname filePath
  if ext ≠ template.extension then none
  else
    let dir := dirname filePath
    let file := basename filePath ext
    let pathSegments := if dir = "." then [] else splitSlashStr dir
    match walkSegments template.segments pathSegments 0 [] with
    | none => none
    | some (pathIdx, captures) =>
      match template.filename.find? (fun p => p.type = SegKind.spread) with
      | some filenameSpread =>
        let remainingPath := jsSlice pathSegments pathIdx (pathSegments.length : Int)
        let fullPath := joinSlash (remainingPath ++ [file])
        let captures := objSet captures filenameSpread.value (some fullPath)
        let staticParts := template.filename.filter (fun p => p.type = SegKind.static)
        let filenameCaptures := matchFilename file staticParts
        if filenameCaptures = none ∧ staticParts ≠ [] then
          if staticParts.all (fun part => jsIncludes file part.value) then
            some captures
          else none
        else some captures
      | none =>
        if pathIdx ≠ (pathSegments.length : Int) then none
        else
          match matchFilename file template.filename with
          | none => none
          | some filenameCaptures => some (objMerge captures filenameCaptures)

/-- Modelled from the spec: the patterns module imported by the current core
    (src/unnamed/part_006) is not under src; per the spec's scope containment,
    a template with a scope only matches candidate paths beginning with its
    scopePrefix, and the prefix is stripped (past the following separator)
    before the segment matcher of src/src/patterns.ts — embedded above as
    matchFileCore — runs. The repository's tests for the missing module show
    exactly this behavior. -/
def matchFile (filePath : String) (template : ParsedTemplate) :
    Option Captures :=
  if template.scopePrefix = "" then matchFileCore filePath template
  else if strStartsWith filePath (template.scopePrefix ++ "/") then
    matchFileCore (strDrop filePath (template.scopePrefix ++ "/").data.length)
      template
  else none

/-! ### Static prefixes and watch directories -/

/-- src/src/patterns.ts `getStaticPrefix`: the directory components before
    the first dynamic segment, joined. -/
def getStaticPrefix (template : ParsedTemplate) : String :=
  joinSlash
    ((template.segments.takeWhile (fun s => s.type = SegKind.static)).map
      (fun s => s.value))

/-- Join two relative path pieces with a separator, ignoring empty pieces. -/
def joinPath (a b : String) : String :=
  if a = "" then b else if b = "" then a else a ++ "/" ++ b

/-- Modelled from the spec: the scope-aware `inferWatchDirs` of the missing
    current patterns module. Per the spec each loaded template contributes
    its static prefix prefixed with its scopePrefix, and the results are
    collected as a deduplicated set (JS Set: first-seen order). -/
def prefixWithScope (template : ParsedTemplate) : String :=
  joinPath template.scopePrefix (getStaticPrefix template)

/-- Modelled from the spec (see `prefixWithScope`): derive the watch
    directories for a template list. -/
def inferWatchDirs (templates : List ParsedTemplate) : List String :=
  templates.foldl
    (fun dirs t =>
      let p := prefixWithScope t
      if dirs.contains p then dirs else dirs ++ [p])
    []

/-! ### Specificity resolver (src/unnamed/part_006) -/

/-- src/unnamed/part_006 `getTemplateSpecificity`: the ranking tuple
    (fully-static flag, static filename parts, static directory parts,
    negated spread count, negated param count, scope depth). -/
def getTemplateSpecificity (template : ParsedTemplate) : List Int :=
  let staticDirParts : Int :=
    ((template.segments.filter (fun s => s.type = SegKind.static)).length : Int)
  let staticFilenameParts : Int :=
    ((template.filename.filter (fun s => s.type = SegKind.static)).length : Int)
  let paramParts : Int :=
    (((template.segments ++ template.filename).filter
      (fun s => s.type = SegKind.param)).length : Int)
  let spreadParts : Int :=
    (((template.segments ++ template.filename).filter
      (fun s => s.type = SegKind.spread)).length : Int)
  let isFullyStatic : Int := if paramParts = 0 ∧ spreadParts = 0 then 1 else 0
  [isFullyStatic, staticFilenameParts, staticDirParts, -spreadParts,
    -paramParts, (template.scopeDepth : Int)]

/-- src/unnamed/part_006 `compareSpecificity`: the first differing entry
    decides the sign (the tuples compared always have six entries). -/
def compareSpecificity : List Int → List Int → Int
  | a :: as, b :: bs => if a ≠ b then a - b else compareSpecificity as bs
  | _, _ => 0

/-- The loop state of findTemplateForFile: the best template so far together
    with its specificity, replaced only on a strictly greater tuple. -/
def findBest (filePath : String) :
    List ParsedTemplate → Option (ParsedTemplate × List Int) →
    Option (ParsedTemplate × List Int)
  | [], best => best
  | t :: ts, best =>
    if matchFile filePath t ≠ none then
      match best with
      | none => findBest filePath ts (some (t, getTemplateSpecificity t))
      | some (bt, bs) =>
        if compareSpecificity (getTemplateSpecificity t) bs > 0 then
          findBest filePath ts (some (t, getTemplateSpecificity t))
        else findBest filePath ts (some (bt, bs))
    else findBest filePath ts best

/-- src/unnamed/part_006 `findTemplateForFile`: the matching template with
    the greatest specificity (first wins on ties), or none. -/
def findTemplateForFile (filePath : String) (templates : List ParsedTemplate) :
    Option ParsedTemplate :=
  (findBest filePath templates none).map (fun b => b.1)

/-! ### Template store merge (src/unnamed/part_006 mergeTemplates) -/

/-- JS `Map.set` over an insertion-ordered string-keyed map: replace the
    entry in place when the key exists, append otherwise. -/
def mapSet (m : List (String × ParsedTemplate)) (k : String)
    (v : ParsedTemplate) : List (String × ParsedTemplate) :=
  if (m.map Prod.fst).contains k then
    m.map (fun e => if e.1 = k then (k, v) else e)
  else m ++ [(k, v)]

/-- src/unnamed/part_006 `mergeTemplates`: a map keyed by `templatePath`,
    presets inserted first, user templates inserted over them; the map's
    values. -/
def mergeTemplates (presetTemplates userTemplates : List ParsedTemplate) :
    List ParsedTemplate :=
  (userTemplates.foldl (fun m t => mapSet m t.templatePath t)
      (presetTemplates.foldl (fun m t => mapSet m t.templatePath t) [])).map
    (fun e => e.2)

/-! ### File store (content reads and writes: getTemplateContent,
applyTemplate, isFileEmpty of src/unnamed/part_006) -/

/-- A file store: content per path, none where a read throws. -/
abbrev Fs := String → Option String

/-- Overwrite one file's content (writeFileSync). -/
def fsWrite (fs : Fs) (p content : String) : Fs :=
  fun q => if q = p then some content else fs q

/-- src/unnamed/part_006 `getTemplateContent`: read the template's source
    file from the store now (no cached copy exists on the template). -/
def getTemplateContent (fs : Fs) (template : ParsedTemplate) : Option String :=
  fs (joinPath template.scaffoldDir template.templatePath)

/-- src/unnamed/part_006 `applyTemplate`: read the template content from the
    store at application time and overwrite the target; a failing read
    propagates as none. -/
def applyTemplate (fs : Fs) (filePath : String) (template : ParsedTemplate) :
    Option Fs :=
  match getTemplateContent fs template with
  | some content => some (fsWrite fs filePath content)
  | none => none

/-- src/unnamed/part_006 `isFileEmpty`: true exactly when the stat succeeds
    with size zero; a failing stat yields false (the store models a file's
    stat by its content, whose length is the reported size). -/
def isFileEmpty (fs : Fs) (filePath : String) : Bool :=
  match fs filePath with
  | some content => content.length == 0
  | none => false

/-! ### Rendering parsed segments back to pattern text

Used to state losslessness of the component parser: a static segment renders
as its text, a param as its bracketed name, a spread as its bracketed name
after three dots. -/

/-- Render one parsed segment back to pattern text. -/
def renderSeg : PatternSegment → String
  | ⟨.static, v⟩ => v
  | ⟨.param, v⟩ => "[" ++ v ++ "]"
  | ⟨.spread, v⟩ => "[..." ++ v ++ "]"

/-- Concatenate the renderings of a segment list, in order. -/
def renderSegs : List PatternSegment → String
  | [] => ""
  | seg :: rest => renderSeg seg ++ renderSegs rest

/-! ### Directory model (src/unnamed/part_006 discoverScaffoldDirs and
loadTemplatesFromDir, src/unnamed/part_007 scanDirSync)

Directories and files form a finite tree; a flag on each directory records
whether reading its entry list succeeds, modelling a readdir that throws
(a directory can be unreadable yet still stat-able, as with a directory
lacking its read bit). Paths are component lists; a thrown error is none. -/

/-- A node of the file tree: a file, or a directory with a readability flag
    and named entries. -/
inductive FsNode where
  | file : FsNode
  | dir : Bool → List (String × FsNode) → FsNode

/-- Look a name up among a directory's entries. -/
def lookupEntry : List (String × FsNode) → String → Option FsNode
  | [], _ => none
  | (n, node) :: rest, k => if n = k then some node else lookupEntry rest k

/-- Resolve a path from a node, component by component. -/
def lookupNode : FsNode → List String → Option FsNode
  | node, [] => some node
  | .file, _ :: _ => none
  | .dir _ entries, k :: ks =>
    match lookupEntry entries k with
    | some child => lookupNode child ks
    | none => none

/-- `existsSync` over the tree. -/
def existsSync (fs : FsNode) (p : List String) : Bool := (lookupNode fs p).isSome

/-- `statSync(p).isDirectory()` over the tree (false where the stat fails). -/
def isDirectoryAt (fs : FsNode) (p : List String) : Bool :=
  match lookupNode fs p with
  | some (.dir _ _) => true
  | _ => false

mutual
/-- src/unnamed/part_007 `scanDirSync`: every file path under a directory,
    relative to it, in entry order with subdirectories expanded in place; a
    readdir that fails anywhere — an unreadable directory, or a file where a
    directory was expected — throws, aborting the whole scan. -/
def scanDirSync : FsNode → Option (List (List String))
  | .file => none
  | .dir false _ => none
  | .dir true entries => scanDirEntries entries
/-- The entry loop of `scanDirSync`. -/
def scanDirEntries : List (String × FsNode) → Option (List (List String))
  | [] => some []
  | (name, .file) :: rest =>
    match scanDirEntries rest with
    | some files => some ([name] :: files)
    | none => none
  | (name, .dir b es) :: rest =>
    match scanDirSync (.dir b es) with
    | none => none
    | some sub =>
      match scanDirEntries rest with
      | none => none
      | some more => some (sub.map (fun q => name :: q) ++ more)
end

/-- src/unnamed/part_006 `ScaffoldSource` over the tree model: the scaffold
    folder, the directory containing it, and its nesting depth. -/
structure ScaffoldSource where
  scaffoldDir : List String
  scopeRoot : List String
  depth : Nat
deriving DecidableEq, Repr

mutual
/-- The recursive scan of src/unnamed/part_006 `discoverScaffoldDirs`:
    record a source when the directory directly contains the scaffold folder
    as a directory, then recurse into subdirectories other than the scaffold
    folder and hidden ones; a readdir failure is swallowed, ending the
    descent there without an error. -/
def discoverScan (sdName : String) : FsNode → List String → Nat →
    List ScaffoldSource
  | .file, _, _ => []
  | .dir readable entries, path, depth =>
    (match lookupEntry entries sdName with
     | some (.dir _ _) => [⟨path ++ [sdName], path, depth⟩]
     | _ => []) ++
    (if readable then discoverEntries sdName entries path depth else [])
/-- The entry loop of `discoverScan`. -/
def discoverEntries (sdName : String) : List (String × FsNode) →
    List String → Nat → List ScaffoldSource
  | [], _, _ => []
  | (name, .dir b es) :: rest, path, depth =>
    (if name ≠ sdName ∧ ¬ strStartsWith name "." then
       discoverScan sdName (.dir b es) (path ++ [name]) (depth + 1)
     else []) ++ discoverEntries sdName rest path depth
  | (_, .file) :: rest, path, depth => discoverEntries sdName rest path depth
end

/-- src/unnamed/part_006 `discoverScaffoldDirs`: scan from the project root
    at depth zero. -/
def discoverScaffoldDirs (fs : FsNode) (sdName : String) : List ScaffoldSource :=
  discoverScan sdName fs [] 0

/-- src/unnamed/part_006 `loadTemplatesFromDir` over the tree model: resolve
    the scaffold directory under the root; a missing directory contributes no
    templates; otherwise the recursive scan runs and a scan failure (an
    unreadable directory) propagates. -/
def loadTemplatesFromDir (fs : FsNode) (scaffoldDir root : List String)
    (scopePre : String) (scopeDepth : Nat) : Option (List ParsedTemplate) :=
  let dir := root ++ scaffoldDir
  if existsSync fs dir = false then some []
  else
    match lookupNode fs dir with
    | none => some []
    | some node =>
      match scanDirSync node with
      | none => none
      | some files =>
        some (files.map (fun f =>
          parseTemplatePath (joinSlash f) (joinSlash dir) scopePre scopeDepth))

/-! ## Theorems -/

/-! ### String and split helpers -/

theorem data_append (s t : String) : (s ++ t).data = s.data ++ t.data := rfl

theorem data_asString (cs : List Char) : (List.asString cs).data = cs := rfl

theorem asString_data (s : String) : s.data.asString = s := rfl

theorem str_ext {s t : String} (h : s.data = t.data) : s = t := by
  cases s; cases t; exact congrArg String.mk h

theorem splitSlash_ne_nil (cs : List Char) : splitSlash cs ≠ [] := by
  cases cs with
  | nil => simp [splitSlash]
  | cons c cs =>
    simp only [splitSlash]
    cases splitSlash cs with
    | nil => simp
    | cons g gs =>
      by_cases h : c = '/' <;> simp [h]

/-! ### Parser scan helpers -/

theorem takeUntilRB_eq {cs inner rest : List Char}
    (h : takeUntilRB cs = some (inner, rest)) : cs = inner ++ ']' :: rest := by
  induction cs generalizing inner with
  | nil => simp [takeUntilRB] at h
  | cons c cs ih =>
    by_cases hc : c = ']'
    · simp [takeUntilRB, hc] at h
      simp [hc, ← h.1, ← h.2]
    · simp only [takeUntilRB, if_neg hc] at h
      cases htu : takeUntilRB cs with
      | none => rw [htu] at h; simp at h
      | some pr =>
        obtain ⟨i0, r0⟩ := pr
        rw [htu] at h
        simp at h
        obtain ⟨h1, h2⟩ := h
        subst h2
        rw [← h1]
        simpa using congrArg (c :: ·) (ih htu)

theorem firstTok_eq {cs b i r : List Char}
    (h : firstTok cs = some (b, i, r)) : cs = b ++ '[' :: (i ++ ']' :: r) := by
  induction cs generalizing b with
  | nil => simp [firstTok] at h
  | cons c cs ih =>
    by_cases hc : c = '['
    · simp only [firstTok, if_pos hc] at h
      cases htu : takeUntilRB cs with
      | none => rw [htu] at h; simp at h
      | some pr =>
        obtain ⟨inner, rest⟩ := pr
        rw [htu] at h
        by_cases hinner : inner = []
        · simp only [hinner, if_pos rfl] at h
          cases hft : firstTok cs with
          | none => rw [hft] at h; simp at h
          | some tr =>
            obtain ⟨b0, i0, r0⟩ := tr
            rw [hft] at h
            simp at h
            obtain ⟨h1, h2, h3⟩ := h
            subst h2; subst h3
            rw [← h1, hc]
            simpa using congrArg (c :: ·) (ih hft)
        · simp only [if_neg hinner] at h
          simp at h
          obtain ⟨h1, h2, h3⟩ := h
          subst h2; subst h3; subst h1
          rw [hc]
          simpa using takeUntilRB_eq htu
    · simp only [firstTok, if_neg hc] at h
      cases hft : firstTok cs with
      | none => rw [hft] at h; simp at h
      | some tr =>
        obtain ⟨b0, i0, r0⟩ := tr
        rw [hft] at h
        simp at h
        obtain ⟨h1, h2, h3⟩ := h
        subst h2; subst h3
        rw [← h1]
        simpa using congrArg (c :: ·) (ih hft)

theorem firstTok_len {cs b i r : List Char}
    (h : firstTok cs = some (b, i, r)) : r.length < cs.length := by
  have := firstTok_eq h
  subst this
  simp
  omega

theorem firstTok_none_of_no_bracket {cs : List Char}
    (h : ∀ c ∈ cs, c ≠ '[') : firstTok cs = none := by
  induction cs with
  | nil => rfl
  | cons c cs ih =>
    have hc : c ≠ '[' := h c (by simp)
    simp only [firstTok, if_neg hc]
    rw [ih (fun x hx => h x (by simp [hx]))]

/-! ### Rendering lemmas for the parser -/

theorem renderSeg_tokSeg {i : List Char} (h : i ≠ ['.', '.', '.']) :
    (renderSeg (tokSeg i)).data = '[' :: (i ++ [']']) := by
  by_cases hp : (['.', '.', '.'].isPrefixOf i : Bool) = true
  · obtain ⟨t, rfl⟩ : ∃ t, i = '.' :: '.' :: '.' :: t := by
      obtain ⟨t, ht⟩ := List.isPrefixOf_iff_prefix.mp hp
      exact ⟨t, by simp [← ht]⟩
    have ht : t ≠ [] := fun h0 => h (by simp [h0])
    simp only [tokSeg, hp, if_true, List.drop_succ_cons, List.drop_zero,
      if_neg ht, renderSeg]
    simp [data_append, data_asString]
  · simp only [tokSeg, Bool.not_eq_true] at hp
    simp [tokSeg, hp, renderSeg, data_append, data_asString]

theorem goParseF_render :
    ∀ (fuel : Nat) (cs : List Char), cs.length ≤ fuel →
      ¬ (['[', '.', '.', '.', ']'] <:+: cs) →
      (renderSegs (goParseF fuel cs)).data = cs := by
  intro fuel
  induction fuel with
  | zero =>
    intro cs hlen _
    have : cs = [] := List.length_eq_zero.mp (Nat.le_zero.mp hlen)
    subst this
    simp [goParseF, renderSegs]
  | succ fuel ih =>
    intro cs hlen hinf
    cases hft : firstTok cs with
    | none =>
      by_cases hcs : cs = []
      · subst hcs; simp [goParseF, renderSegs]
      · simp [goParseF, hft, hcs, renderSegs, renderSeg, data_append,
          data_asString]
    | some tri =>
      obtain ⟨b, i, r⟩ := tri
      have hdecomp := firstTok_eq hft
      have hrlen : r.length < cs.length := firstTok_len hft
      have hrsuf : r <:+ cs := by
        refine ⟨b ++ '[' :: i ++ [']'], ?_⟩
        rw [hdecomp]; simp
      have hrinf : ¬ (['[', '.', '.', '.', ']'] <:+: r) := by
        intro hx
        exact hinf (hx.trans hrsuf.isInfix)
      have hine : i ≠ ['.', '.', '.'] := by
        intro hx
        apply hinf
        refine ⟨b, r, ?_⟩
        rw [hdecomp, hx]
        simp
      have hr := ih r (by omega) hrinf
      by_cases hb : b = []
      · subst hb
        simp only [goParseF, hft, if_pos rfl, List.nil_append, renderSegs]
        rw [data_append, renderSeg_tokSeg hine, hr, hdecomp]
        simp
      · simp only [goParseF, hft, if_neg hb, renderSegs, List.singleton_append]
        have hst : renderSeg ⟨SegKind.static, b.asString⟩ = b.asString := rfl
        rw [data_append, data_append, renderSeg_tokSeg hine, hr, hst,
          data_asString, hdecomp]
        simp

/-- C9 counterexample: the component "[...]" parses — by the backtracking of
    the bracket-token regex — to a spread segment named "...", which renders
    back as "[......]", not "[...]"; so parsing is not lossless as claimed. -/
theorem c9_counterexample :
    parseSegment "[...]" = [⟨SegKind.spread, "..."⟩] ∧
    renderSegs (parseSegment "[...]") = "[......]" ∧
    renderSegs (parseSegment "[...]") ≠ "[...]" := by decide

/-- C9 (amended): parsing a single path component is lossless — rendering a
    static as its text, a param as its name in brackets and a spread as its
    name in brackets after three dots reconstructs the component — for every
    component not containing the five-character token "[...]" (whose inner
    text of exactly three dots parses to a spread named by the dots and
    renders differently); and a component with no left bracket (hence no
    bracket token) parses to exactly one static segment equal to the whole
    component. -/
theorem c9_parse_segment_roundtrip (s : String) :
    (¬ (['[', '.', '.', '.', ']'] <:+: s.data) →
      renderSegs (parseSegment s) = s) ∧
    ((∀ c ∈ s.data, c ≠ '[') → parseSegment s = [⟨SegKind.static, s⟩]) := by
  constructor
  · intro hinf
    have hren := goParseF_render s.data.length s.data (Nat.le_refl _) hinf
    by_cases hp : goParseF s.data.length s.data = []
    · rw [hp] at hren
      have hs : s.data = [] := by simpa [renderSegs] using hren.symm
      have hs0 : s = "" := str_ext (by simp [hs])
      subst hs0
      decide
    · unfold parseSegment goParse
      simp only [if_neg hp]
      exact str_ext hren
  · intro hnb
    have hft := firstTok_none_of_no_bracket hnb
    unfold parseSegment goParse
    cases hd : s.data with
    | nil => simp [goParseF]
    | cons c cs =>
      rw [hd] at hft
      simp only [List.length_cons, goParseF, hft]
      simp only [List.cons_ne_nil, if_false, reduceIte]
      rw [← hd, asString_data]

/-- Witness for the amended C9 theorem at concrete components. -/
theorem c9_witness :
    renderSegs (parseSegment "Base[name]") = "Base[name]" ∧
    parseSegment "Button" = [⟨SegKind.static, "Button"⟩] :=
  ⟨(c9_parse_segment_roundtrip "Base[name]").1 (by decide),
   (c9_parse_segment_roundtrip "Button").2 (by decide)⟩

/-! ### Matcher lemmas -/

theorem splitSlashStr_length_pos (s : String) : 0 < (splitSlashStr s).length := by
  rw [splitSlashStr, List.length_map]
  exact List.length_pos.mpr (splitSlash_ne_nil s.data)

/-- With no directory segments, no filename spread and the directory part of
    the path not consumed, the segment matcher fails. -/
theorem matchFileCore_no_dirs {p : String} {t : ParsedTemplate}
    (hseg : t.segments = []) (hsp : ∀ s ∈ t.filename, s.type ≠ SegKind.spread)
    (hdir : dirname p ≠ ".") : matchFileCore p t = none := by
  unfold matchFileCore
  by_cases hext : extname p = t.extension
  · have hfind : t.filename.find? (fun s => s.type = SegKind.spread) = none := by
      rw [List.find?_eq_none]
      intro x hx
      simpa using hsp x hx
    have hlen := splitSlashStr_length_pos (dirname p)
    have hne : (0 : Int) ≠ ((splitSlashStr (dirname p)).length : Int) := by
      omega
    simp [hext, hseg, hdir, walkSegments, hfind, hne]
  · simp [hext]

/-- C7: for the pattern [name].vue the path Button.vue matches with name
    captured as Button; nested/Button.vue does not match; and in general a
    template with no directory segments and no spread in its filename
    pattern rejects every path having a directory part, because the
    directory components are then never fully consumed. -/
theorem c7_bare_param_single_component :
    matchFile "Button.vue" (parseTemplatePath "[name].vue" "/scaffold" "" 0) =
      some [("name", some "Button")] ∧
    matchFile "nested/Button.vue"
      (parseTemplatePath "[name].vue" "/scaffold" "" 0) = none ∧
    (∀ (p : String) (t : ParsedTemplate), t.segments = [] →
      (∀ s ∈ t.filename, s.type ≠ SegKind.spread) → t.scopePrefix = "" →
      dirname p ≠ "." → matchFile p t = none) := by
  refine ⟨by decide, by decide, ?_⟩
  intro p t hseg hsp hscope hdir
  unfold matchFile
  rw [hscope]
  simp only [if_pos rfl]
  exact matchFileCore_no_dirs hseg hsp hdir

/-- Witness for C7's general clause at a concrete path and template. -/
theorem c7_witness :
    matchFile "deep/Box.vue" (parseTemplatePath "[name].vue" "/scaffold" "" 0) =
      none :=
  c7_bare_param_single_component.2.2 "deep/Box.vue"
    (parseTemplatePath "[name].vue" "/scaffold" "" 0)
    (by decide) (by decide) (by decide) (by decide)

/-! ### The spread walk (C4) -/

theorem walkSegments_statics (rest : List PatternSegment) :
    ∀ (segs : List String) (j : Nat) (caps : Captures),
      (∀ s ∈ rest, s.type = SegKind.static) →
      j + rest.length = segs.length →
      walkSegments rest segs (j : Int) caps =
        (if segs.drop j = rest.map (fun s => s.value) then
          some ((segs.length : Int), caps) else none) := by
  induction rest with
  | nil =>
    intro segs j caps _ hj
    simp only [List.length_nil, Nat.add_zero] at hj
    subst hj
    simp [walkSegments, List.drop_length]
  | cons seg rest ih =>
    intro segs j caps hstat hj
    have hty : seg.type = SegKind.static := hstat seg (by simp)
    have hjlt : j < segs.length := by
      simp only [List.length_cons] at hj
      omega
    have hget : jsGet segs (j : Int) = some segs[j] := by
      simp [jsGet, List.getElem?_eq_getElem hjlt]
    have hdropj : segs.drop j = segs[j] :: segs.drop (j + 1) :=
      List.drop_eq_getElem_cons hjlt
    simp only [walkSegments, hty, hget]
    by_cases heq : segs[j] = seg.value
    · simp only [heq, if_pos rfl]
      have hcast : ((j : Int) + 1) = ((j + 1 : Nat) : Int) := by push_cast; ring
      rw [hcast, ih segs (j + 1) caps (fun s hs => hstat s (by simp [hs]))
        (by simp only [List.length_cons] at hj; omega)]
      rw [hdropj, heq]
      simp
    · have : ¬ (some segs[j] = some seg.value) := by simpa using heq
      simp only [if_neg this]
      rw [hdropj]
      have hne : segs[j] :: segs.drop (j + 1) ≠
          seg.value :: rest.map (fun s => s.value) := by
        intro hx
        injection hx with h1 h2
        exact heq h1
      rw [List.map_cons, if_neg hne]

/-- C4: in the directory walk, a spread consumes the components from the
    current index up to the total count minus the count of statics after it
    (reserving exactly that many trailing components), captures the consumed
    slice joined by the separator under its name, and the walk then succeeds
    exactly when the statics after the spread equal those reserved trailing
    components, finishing at the end of the components. -/
theorem c4_spread_reserves (name : String) (rest : List PatternSegment)
    (segs : List String) (i : Nat) (caps : Captures)
    (hstat : ∀ s ∈ rest, s.type = SegKind.static)
    (hle : i + rest.length ≤ segs.length) :
    walkSegments (⟨SegKind.spread, name⟩ :: rest) segs (i : Int) caps =
      (if segs.drop (segs.length - rest.length) = rest.map (fun s => s.value)
       then some ((segs.length : Int),
         objSet caps name
           (some (joinSlash ((segs.take (segs.length - rest.length)).drop i))))
       else none) := by
  have hcount : (rest.filter (fun s => s.type = SegKind.static)).length =
      rest.length := by
    rw [List.filter_eq_self.mpr (by intro a ha; simpa using hstat a ha)]
  have hrle : rest.length ≤ segs.length := by omega
  have hcast : (segs.length : Int) - (rest.length : Int) =
      ((segs.length - rest.length : Nat) : Int) := by omega
  have hslice : jsSlice segs (i : Int)
      ((segs.length : Int) - (rest.length : Int)) =
      (segs.take (segs.length - rest.length)).drop i := by
    unfold jsSlice
    have h1 : ¬ ((i : Int) < 0) := by omega
    have h2 : ¬ ((segs.length : Int) - (rest.length : Int) < 0) := by omega
    have h3 : min (i : Int) (segs.length : Int) = (i : Int) := by omega
    have h4 : min ((segs.length : Int) - (rest.length : Int))
        ((segs.length : Int)) = (segs.length : Int) - (rest.length : Int) := by
      omega
    simp only [if_neg h1, if_neg h2, h3, h4]
    have h5 : ((segs.length : Int) - (rest.length : Int)).toNat =
        segs.length - rest.length := by omega
    have h6 : ((i : Int)).toNat = i := by omega
    rw [h5, h6]
  simp only [walkSegments, hcount]
  rw [hslice, hcast]
  rw [walkSegments_statics rest segs (segs.length - rest.length)
    (objSet caps name (some (joinSlash ((segs.take (segs.length - rest.length)).drop i))))
    hstat (by omega)]

/-- Witness for C4 at a concrete spread pattern and path. -/
theorem c4_witness :
    walkSegments [⟨SegKind.spread, "path"⟩, ⟨SegKind.static, "ui"⟩]
      ["src", "widgets", "ui"] (1 : Int) [] =
      some ((3 : Int), [("path", some "widgets")]) := by
  have h := c4_spread_reserves "path" [⟨SegKind.static, "ui"⟩]
    ["src", "widgets", "ui"] 1 [] (by decide) (by decide)
  rw [show ((1 : Nat) : Int) = (1 : Int) from rfl] at h
  rw [h]
  decide

/-! ### Specificity comparison lemmas (C1) -/

theorem getTemplateSpecificity_length (t : ParsedTemplate) :
    (getTemplateSpecificity t).length = 6 := rfl

theorem compareSpecificity_self : ∀ a : List Int, compareSpecificity a a = 0
  | [] => rfl
  | _ :: xs => by simp [compareSpecificity, compareSpecificity_self xs]

theorem compareSpecificity_neg (a : List Int) : ∀ b : List Int,
    compareSpecificity b a = -compareSpecificity a b := by
  induction a with
  | nil => intro b; cases b <;> simp [compareSpecificity]
  | cons x xs ih =>
    intro b
    cases b with
    | nil => simp [compareSpecificity]
    | cons y ys =>
      by_cases h : x = y
      · subst h; simp [compareSpecificity, ih]
      · have h2 : y ≠ x := fun hh => h hh.symm
        simp only [compareSpecificity, if_pos h2,
          if_pos (by exact h : x ≠ y)]
        omega

theorem compareSpecificity_trans (a : List Int) : ∀ (b c : List Int),
    a.length = b.length → b.length = c.length →
    compareSpecificity a b ≤ 0 → compareSpecificity b c ≤ 0 →
    compareSpecificity a c ≤ 0 := by
  induction a with
  | nil =>
    intro b c hl1 hl2 _ _
    have hb : b = [] := List.length_eq_zero.mp hl1.symm
    have hc : c = [] := List.length_eq_zero.mp (hb ▸ hl2).symm
    simp [hb, hc, compareSpecificity]
  | cons x xs ih =>
    intro b c hl1 hl2 hab hbc
    cases b with
    | nil => simp at hl1
    | cons y ys =>
      cases c with
      | nil => simp at hl2
      | cons z zs =>
        simp only [compareSpecificity] at hab hbc ⊢
        by_cases hxy : x = y <;> by_cases hyz : y = z
        · have hxz : x = z := hxy.trans hyz
          simp only [hxy, hyz, hxz] at hab hbc ⊢
          simp only [ne_eq, not_true_eq_false, if_false, reduceIte] at hab hbc ⊢
          exact ih ys zs (by simpa using hl1) (by simpa using hl2) hab hbc
        · have hxz : x ≠ z := fun h => hyz (hxy ▸ h)
          simp only [if_pos hxz, if_pos hyz] at hbc ⊢
          omega
        · have hxz : x ≠ z := fun h => hxy (h.trans hyz.symm)
          simp only [if_pos hxy, if_pos hxz] at hab ⊢
          omega
        · simp only [if_pos hxy, if_pos hyz] at hab hbc
          have hxz : x ≠ z := by omega
          simp only [if_pos hxz]
          omega

theorem compareSpecificity_pos_iff_lex (a : List Int) : ∀ b : List Int,
    a.length = b.length →
    (0 < compareSpecificity a b ↔ List.Lex (· < ·) b a) := by
  induction a with
  | nil =>
    intro b hl
    have hb : b = [] := List.length_eq_zero.mp hl.symm
    subst hb
    simp only [compareSpecificity]
    exact ⟨fun h => absurd h (by omega), fun h => nomatch h⟩
  | cons x xs ih =>
    intro b hl
    cases b with
    | nil => simp at hl
    | cons y ys =>
      simp only [compareSpecificity]
      by_cases hxy : x = y
      · subst hxy
        simp only [ne_eq, not_true_eq_false, if_false, reduceIte]
        rw [ih ys (by simpa using hl)]
        constructor
        · intro h; exact List.Lex.cons h
        · intro h
          cases h with
          | cons h' => exact h'
          | rel h' => exact absurd h' (lt_irrefl x)
      · simp only [if_pos hxy]
        constructor
        · intro h
          exact List.Lex.rel (by omega)
        · intro h
          cases h with
          | cons h' => exact absurd rfl hxy
          | rel h' => omega

/-! ### The resolver fold (C1, C2) -/

theorem findBest_correct (fp : String) :
    ∀ (ts : List ParsedTemplate) (acc : Option (ParsedTemplate × List Int)),
      (∀ bt bs, acc = some (bt, bs) → bs = getTemplateSpecificity bt) →
      ((findBest fp ts acc = none →
          (acc = none ∧ ∀ t ∈ ts, matchFile fp t = none)) ∧
       (∀ rt rs, findBest fp ts acc = some (rt, rs) →
          rs = getTemplateSpecificity rt ∧
          (acc = some (rt, rs) ∨ (rt ∈ ts ∧ matchFile fp rt ≠ none)) ∧
          (∀ t ∈ ts, matchFile fp t ≠ none →
            compareSpecificity (getTemplateSpecificity t) rs ≤ 0) ∧
          (∀ bt bs, acc = some (bt, bs) →
            compareSpecificity bs rs ≤ 0))) := by
  intro ts
  induction ts with
  | nil =>
    intro acc hacc
    constructor
    · intro h
      exact ⟨by simpa [findBest] using h, by simp⟩
    · intro rt rs h
      simp only [findBest] at h
      refine ⟨hacc rt rs h, Or.inl h, by simp, ?_⟩
      intro bt bs hbs
      rw [hbs] at h
      injection h with h'
      injection h' with h1 h2
      rw [h2, compareSpecificity_self]
  | cons t ts ih =>
    intro acc hacc
    by_cases hm : matchFile fp t = none
    · have hred : findBest fp (t :: ts) acc = findBest fp ts acc := by
        simp [findBest, hm]
      constructor
      · intro h
        rw [hred] at h
        obtain ⟨h1, h2⟩ := (ih acc hacc).1 h
        refine ⟨h1, ?_⟩
        intro u hu
        rcases List.mem_cons.mp hu with rfl | hu'
        · exact hm
        · exact h2 u hu'
      · intro rt rs h
        rw [hred] at h
        obtain ⟨e1, e2, e3, e4⟩ := (ih acc hacc).2 rt rs h
        refine ⟨e1, ?_, ?_, e4⟩
        · rcases e2 with h' | ⟨hmem, hmatch⟩
          · exact Or.inl h'
          · exact Or.inr ⟨List.mem_cons_of_mem _ hmem, hmatch⟩
        · intro u hu hun
          rcases List.mem_cons.mp hu with rfl | hu'
          · exact absurd hm hun
          · exact e3 u hu' hun
    · cases acc with
      | none =>
        have hacc' : ∀ bt bs,
            (some (t, getTemplateSpecificity t) :
              Option (ParsedTemplate × List Int)) = some (bt, bs) →
            bs = getTemplateSpecificity bt := by
          intro bt bs hx
          injection hx with hx'
          injection hx' with h1 h2
          rw [← h1, ← h2]
        have hred : findBest fp (t :: ts) none =
            findBest fp ts (some (t, getTemplateSpecificity t)) := by
          simp [findBest, hm]
        constructor
        · intro h
          rw [hred] at h
          obtain ⟨h1, _⟩ := (ih _ hacc').1 h
          exact absurd h1 (by simp)
        · intro rt rs h
          rw [hred] at h
          obtain ⟨e1, e2, e3, e4⟩ := (ih _ hacc').2 rt rs h
          refine ⟨e1, ?_, ?_, by intro bt bs hbs; simp at hbs⟩
          · rcases e2 with h' | ⟨hmem, hmatch⟩
            · injection h' with h''
              injection h'' with h1 h2
              exact Or.inr ⟨by rw [← h1]; exact List.mem_cons_self t ts,
                by rw [← h1]; exact hm⟩
            · exact Or.inr ⟨List.mem_cons_of_mem _ hmem, hmatch⟩
          · intro u hu hun
            rcases List.mem_cons.mp hu with rfl | hu'
            · exact e4 u (getTemplateSpecificity u) rfl
            · exact e3 u hu' hun
      | some pair =>
        obtain ⟨bt, bs⟩ := pair
        have hbs : bs = getTemplateSpecificity bt := hacc bt bs rfl
        by_cases hcmp :
            compareSpecificity (getTemplateSpecificity t) bs > 0
        · have hacc' : ∀ bt' bs',
              (some (t, getTemplateSpecificity t) :
                Option (ParsedTemplate × List Int)) = some (bt', bs') →
              bs' = getTemplateSpecificity bt' := by
            intro bt' bs' hx
            injection hx with hx'
            injection hx' with h1 h2
            rw [← h1, ← h2]
          have hred : findBest fp (t :: ts) (some (bt, bs)) =
              findBest fp ts (some (t, getTemplateSpecificity t)) := by
            simp [findBest, hm, hcmp]
          constructor
          · intro h
            rw [hred] at h
            obtain ⟨h1, _⟩ := (ih _ hacc').1 h
            exact absurd h1 (by simp)
          · intro rt rs h
            rw [hred] at h
            obtain ⟨e1, e2, e3, e4⟩ := (ih _ hacc').2 rt rs h
            have hts : compareSpecificity (getTemplateSpecificity t) rs ≤ 0 :=
              e4 t (getTemplateSpecificity t) rfl
            refine ⟨e1, ?_, ?_, ?_⟩
            · rcases e2 with h' | ⟨hmem, hmatch⟩
              · injection h' with h''
                injection h'' with h1 h2
                exact Or.inr ⟨by rw [← h1]; exact List.mem_cons_self t ts,
                  by rw [← h1]; exact hm⟩
              · exact Or.inr ⟨List.mem_cons_of_mem _ hmem, hmatch⟩
            · intro u hu hun
              rcases List.mem_cons.mp hu with rfl | hu'
              · exact e4 u (getTemplateSpecificity u) rfl
              · exact e3 u hu' hun
            · intro bt0 bs0 hbs0
              injection hbs0 with hx'
              injection hx' with h1 h2
              rw [← h2]
              have hneg : compareSpecificity bs (getTemplateSpecificity t) ≤ 0 := by
                rw [compareSpecificity_neg]
                omega
              exact compareSpecificity_trans bs (getTemplateSpecificity t) rs
                (by rw [hbs, getTemplateSpecificity_length,
                  getTemplateSpecificity_length])
                (by rw [getTemplateSpecificity_length, e1,
                  getTemplateSpecificity_length])
                hneg hts
        · have hred : findBest fp (t :: ts) (some (bt, bs)) =
              findBest fp ts (some (bt, bs)) := by
            simp [findBest, hm, hcmp]
          constructor
          · intro h
            rw [hred] at h
            obtain ⟨h1, _⟩ := (ih _ hacc).1 h
            exact absurd h1 (by simp)
          · intro rt rs h
            rw [hred] at h
            obtain ⟨e1, e2, e3, e4⟩ := (ih _ hacc).2 rt rs h
            have hbsr : compareSpecificity bs rs ≤ 0 := e4 bt bs rfl
            refine ⟨e1, ?_, ?_, ?_⟩
            · rcases e2 with h' | ⟨hmem, hmatch⟩
              · exact Or.inl h'
              · exact Or.inr ⟨List.mem_cons_of_mem _ hmem, hmatch⟩
            · intro u hu hun
              rcases List.mem_cons.mp hu with rfl | hu'
              · refine compareSpecificity_trans _ bs rs
                  (by rw [getTemplateSpecificity_length, hbs,
                    getTemplateSpecificity_length])
                  (by rw [hbs, getTemplateSpecificity_length, e1,
                    getTemplateSpecificity_length])
                  (by omega) hbsr
              · exact e3 u hu' hun
            · intro bt0 bs0 hbs0
              injection hbs0 with hx'
              injection hx' with h1 h2
              rw [← h2]
              exact hbsr

/-- C1: the resolver returns a template only when it matches; the returned
    template's six-entry ranking tuple (fully-static flag, static filename
    parts, static directory parts, negated spreads, negated params, scope
    depth) is lexicographically maximal among the matching candidates; when
    no candidate matches the result is none; and on Button.vue against the
    spread and param filename patterns it selects the param pattern. -/
theorem c1_resolver_picks_lex_maximal :
    (∀ (fp : String) (ts : List ParsedTemplate) (t : ParsedTemplate),
      findTemplateForFile fp ts = some t →
        t ∈ ts ∧ matchFile fp t ≠ none ∧
        ∀ u ∈ ts, matchFile fp u ≠ none →
          ¬ List.Lex (· < ·) (getTemplateSpecificity t)
            (getTemplateSpecificity u)) ∧
    (∀ (fp : String) (ts : List ParsedTemplate),
      (∀ t ∈ ts, matchFile fp t = none) → findTemplateForFile fp ts = none) ∧
    findTemplateForFile "Button.vue"
      [parseTemplatePath "[...path].vue" "/scaffold" "" 0,
       parseTemplatePath "[name].vue" "/scaffold" "" 0] =
      some (parseTemplatePath "[name].vue" "/scaffold" "" 0) := by
  refine ⟨?_, ?_, by decide⟩
  · intro fp ts t h
    unfold findTemplateForFile at h
    cases hb : findBest fp ts none with
    | none => rw [hb] at h; simp at h
    | some pair =>
      obtain ⟨rt, rs⟩ := pair
      rw [hb] at h
      have ht : rt = t := by simpa using h
      subst ht
      obtain ⟨e1, e2, e3, _⟩ :=
        ((findBest_correct fp ts none) (by simp)).2 rt rs hb
      rcases e2 with h' | ⟨hmem, hmatch⟩
      · simp at h'
      refine ⟨hmem, hmatch, ?_⟩
      intro u hu hun hlex
      have hc := e3 u hu hun
      rw [e1] at hc
      have := (compareSpecificity_pos_iff_lex (getTemplateSpecificity u)
        (getTemplateSpecificity rt)
        (by rw [getTemplateSpecificity_length,
          getTemplateSpecificity_length])).mpr hlex
      omega
  · intro fp ts hall
    unfold findTemplateForFile
    cases hb : findBest fp ts none with
    | none => rfl
    | some pair =>
      obtain ⟨rt, rs⟩ := pair
      obtain ⟨_, e2, _, _⟩ :=
        ((findBest_correct fp ts none) (by simp)).2 rt rs hb
      rcases e2 with h' | ⟨hmem, hmatch⟩
      · simp at h'
      · exact absurd (hall rt hmem) hmatch

/-- Witness for C1 at the concrete Button.vue resolution. -/
theorem c1_witness :
    (parseTemplatePath "[name].vue" "/scaffold" "" 0) ∈
      [parseTemplatePath "[...path].vue" "/scaffold" "" 0,
       parseTemplatePath "[name].vue" "/scaffold" "" 0] ∧
    matchFile "Button.vue" (parseTemplatePath "[name].vue" "/scaffold" "" 0) ≠
      none ∧
    ∀ u ∈ [parseTemplatePath "[...path].vue" "/scaffold" "" 0,
           parseTemplatePath "[name].vue" "/scaffold" "" 0],
      matchFile "Button.vue" u ≠ none →
      ¬ List.Lex (· < ·)
        (getTemplateSpecificity (parseTemplatePath "[name].vue" "/scaffold" "" 0))
        (getTemplateSpecificity u) :=
  c1_resolver_picks_lex_maximal.1 "Button.vue"
    [parseTemplatePath "[...path].vue" "/scaffold" "" 0,
     parseTemplatePath "[name].vue" "/scaffold" "" 0]
    (parseTemplatePath "[name].vue" "/scaffold" "" 0) (by decide)

/-! ### Scope containment (C2) -/

/-- A template returned by the resolver is a matching member of the list. -/
theorem findTemplateForFile_matches {fp : String} {ts : List ParsedTemplate}
    {t : ParsedTemplate} (h : findTemplateForFile fp ts = some t) :
    t ∈ ts ∧ matchFile fp t ≠ none := by
  unfold findTemplateForFile at h
  cases hb : findBest fp ts none with
  | none => rw [hb] at h; simp at h
  | some pair =>
    obtain ⟨rt, rs⟩ := pair
    rw [hb] at h
    have ht : rt = t := by simpa using h
    subst ht
    obtain ⟨_, e2, _, _⟩ :=
      ((findBest_correct fp ts none) (by simp)).2 rt rs hb
    rcases e2 with h' | hh
    · simp at h'
    · exact hh

/-- C2: a template whose scopePrefix is nonempty is excluded from every
    concrete path that does not begin with that prefix and the separator:
    the match is none and the resolver never selects it for that path; in
    particular src/components/Header.vue never matches a template scoped
    under src/modules/admin. -/
theorem c2_scope_containment :
    (∀ (fp : String) (t : ParsedTemplate), t.scopePrefix ≠ "" →
      strStartsWith fp (t.scopePrefix ++ "/") = false →
      matchFile fp t = none ∧
      ∀ ts : List ParsedTemplate, findTemplateForFile fp ts ≠ some t) ∧
    (∀ t : ParsedTemplate, t.scopePrefix = "src/modules/admin" →
      matchFile "src/components/Header.vue" t = none ∧
      ∀ ts : List ParsedTemplate,
        findTemplateForFile "src/components/Header.vue" ts ≠ some t) := by
  constructor
  · intro fp t hne hpre
    have hmf : matchFile fp t = none := by
      unfold matchFile
      simp [hne, hpre]
    refine ⟨hmf, ?_⟩
    intro ts hfind
    exact (findTemplateForFile_matches hfind).2 hmf
  · intro t hsp
    have hmf : matchFile "src/components/Header.vue" t = none := by
      unfold matchFile
      rw [hsp]
      have h1 : ¬ ("src/modules/admin" : String) = "" := by decide
      have h2 : strStartsWith "src/components/Header.vue"
          "src/modules/admin/" = false := by decide
      simp [h1, h2]
    refine ⟨hmf, ?_⟩
    intro ts hfind
    exact (findTemplateForFile_matches hfind).2 hmf

/-- Witness for C2 at a concrete admin-scoped template and outside path. -/
theorem c2_witness :
    matchFile "src/components/Button.vue"
      (parseTemplatePath "components/[...path].vue" "/scaffold"
        "src/modules/admin" 2) = none ∧
    ∀ ts : List ParsedTemplate,
      findTemplateForFile "src/components/Button.vue" ts ≠
        some (parseTemplatePath "components/[...path].vue" "/scaffold"
          "src/modules/admin" 2) :=
  c2_scope_containment.1 "src/components/Button.vue"
    (parseTemplatePath "components/[...path].vue" "/scaffold"
      "src/modules/admin" 2) (by decide) (by decide)

/-! ### The template map (C3) -/

theorem mapSet_of_not_mem {m : List (String × ParsedTemplate)} {k : String}
    (v : ParsedTemplate) (h : k ∉ m.map Prod.fst) :
    mapSet m k v = m ++ [(k, v)] := by
  unfold mapSet
  rw [if_neg (by simpa using h)]

theorem mapSet_mem_self (m : List (String × ParsedTemplate)) (k : String)
    (v : ParsedTemplate) : (k, v) ∈ mapSet m k v := by
  unfold mapSet
  by_cases hc : k ∈ m.map Prod.fst
  · rw [if_pos (by simpa using hc)]
    obtain ⟨e, he, hek⟩ := List.mem_map.mp hc
    refine List.mem_map.mpr ⟨e, he, ?_⟩
    rw [if_pos hek]
  · rw [if_neg (by simpa using hc)]
    simp

theorem mapSet_mem_of_ne {m : List (String × ParsedTemplate)} {k : String}
    {v : ParsedTemplate} {e : String × ParsedTemplate}
    (he : e ∈ m) (hne : e.1 ≠ k) : e ∈ mapSet m k v := by
  unfold mapSet
  by_cases hc : ((m.map Prod.fst).contains k) = true
  · rw [if_pos hc]
    refine List.mem_map.mpr ⟨e, he, ?_⟩
    rw [if_neg hne]
  · rw [if_neg hc]
    exact List.mem_append_left _ he

theorem mapSet_keys_of_mem {m : List (String × ParsedTemplate)} {k : String}
    (v : ParsedTemplate) (h : k ∈ m.map Prod.fst) :
    (mapSet m k v).map Prod.fst = m.map Prod.fst := by
  unfold mapSet
  rw [if_pos (by simpa using h), List.map_map]
  apply List.map_congr_left
  intro e _
  by_cases he : e.1 = k
  · simp [he]
  · simp [he]

theorem mapSet_keys_nodup {m : List (String × ParsedTemplate)} {k : String}
    {v : ParsedTemplate} (h : (m.map Prod.fst).Nodup) :
    ((mapSet m k v).map Prod.fst).Nodup := by
  by_cases hc : k ∈ m.map Prod.fst
  · rw [mapSet_keys_of_mem v hc]
    exact h
  · rw [mapSet_of_not_mem v hc, List.map_append]
    rw [List.nodup_append]
    exact ⟨h, by simp, by simpa using hc⟩

theorem mapSet_wf {m : List (String × ParsedTemplate)} {t : ParsedTemplate}
    (h : ∀ e ∈ m, e.2.templatePath = e.1) :
    ∀ e ∈ mapSet m t.templatePath t, e.2.templatePath = e.1 := by
  intro e he
  unfold mapSet at he
  by_cases hc : ((m.map Prod.fst).contains t.templatePath) = true
  · rw [if_pos hc] at he
    obtain ⟨e0, he0, heq⟩ := List.mem_map.mp he
    by_cases h0 : e0.1 = t.templatePath
    · rw [if_pos h0] at heq
      rw [← heq]
    · rw [if_neg h0] at heq
      rw [← heq]
      exact h e0 he0
  · rw [if_neg hc] at he
    rcases List.mem_append.mp he with h1 | h1
    · exact h e h1
    · simp at h1
      rw [h1]

theorem foldl_mapSet_wf : ∀ (ts : List ParsedTemplate)
    (m : List (String × ParsedTemplate)),
    (∀ e ∈ m, e.2.templatePath = e.1) →
    ∀ e ∈ ts.foldl (fun m t => mapSet m t.templatePath t) m,
      e.2.templatePath = e.1 := by
  intro ts
  induction ts with
  | nil => intro m h; simpa using h
  | cons t ts ih =>
    intro m h
    simp only [List.foldl_cons]
    exact ih _ (mapSet_wf h)

theorem foldl_mapSet_keys_nodup : ∀ (ts : List ParsedTemplate)
    (m : List (String × ParsedTemplate)),
    (m.map Prod.fst).Nodup →
    ((ts.foldl (fun m t => mapSet m t.templatePath t) m).map Prod.fst).Nodup := by
  intro ts
  induction ts with
  | nil => intro m h; simpa using h
  | cons t ts ih =>
    intro m h
    simp only [List.foldl_cons]
    exact ih _ (mapSet_keys_nodup h)

theorem foldl_mapSet_mem_preserved : ∀ (ts : List ParsedTemplate)
    (m : List (String × ParsedTemplate)) (e : String × ParsedTemplate),
    e ∈ m → (∀ t ∈ ts, t.templatePath ≠ e.1) →
    e ∈ ts.foldl (fun m t => mapSet m t.templatePath t) m := by
  intro ts
  induction ts with
  | nil => intro m e he _; simpa using he
  | cons t ts ih =>
    intro m e he hne
    simp only [List.foldl_cons]
    exact ih _ e
      (mapSet_mem_of_ne he (fun hx => hne t (by simp) hx.symm))
      (fun u hu => hne u (by simp [hu]))

theorem foldl_mapSet_mem_insert (ts : List ParsedTemplate)
    (m : List (String × ParsedTemplate)) (t : ParsedTemplate) (ht : t ∈ ts)
    (hnod : (ts.map (fun u => u.templatePath)).Nodup) :
    (t.templatePath, t) ∈
      ts.foldl (fun m t => mapSet m t.templatePath t) m := by
  obtain ⟨s1, s2, rfl⟩ := List.append_of_mem ht
  rw [List.foldl_append]
  simp only [List.foldl_cons]
  have hnot : t.templatePath ∉ s2.map (fun u => u.templatePath) := by
    have h2 : ((t :: s2).map (fun u => u.templatePath)).Nodup := by
      rw [List.map_append] at hnod
      exact hnod.of_append_right
    rw [List.map_cons, List.nodup_cons] at h2
    exact h2.1
  apply foldl_mapSet_mem_preserved
  · exact mapSet_mem_self _ _ _
  · intro u hu hx
    exact hnot (List.mem_map.mpr ⟨u, hu, hx⟩)

theorem values_filter_nil : ∀ {m : List (String × ParsedTemplate)}
    {k : String},
    (∀ e ∈ m, e.2.templatePath = e.1) → k ∉ m.map Prod.fst →
    (m.map Prod.snd).filter (fun u => u.templatePath = k) = [] := by
  intro m
  induction m with
  | nil => intro k _ _; rfl
  | cons e m ih =>
    intro k hwf h
    have hek : e.2.templatePath = e.1 := hwf e (by simp)
    have hne : ¬ (e.1 = k) := fun hx => h (by simp [hx])
    simp only [List.map_cons, List.filter_cons]
    rw [if_neg (by simpa [hek] using hne)]
    exact ih (fun x hx => hwf x (by simp [hx])) (fun hx => h (by simp [hx]))

theorem values_filter_single : ∀ {m : List (String × ParsedTemplate)}
    {k : String} {v : ParsedTemplate},
    (∀ e ∈ m, e.2.templatePath = e.1) → (m.map Prod.fst).Nodup →
    (k, v) ∈ m →
    (m.map Prod.snd).filter (fun u => u.templatePath = k) = [v] := by
  intro m
  induction m with
  | nil => intro k v _ _ h; simp at h
  | cons e m ih =>
    intro k v hwf hnod hm
    have hek : e.2.templatePath = e.1 := hwf e (by simp)
    rcases List.mem_cons.mp hm with rfl | hm'
    · simp only [List.map_cons, List.filter_cons]
      rw [if_pos (by simp only [decide_eq_true_eq]; exact hek)]
      have hknot : k ∉ m.map Prod.fst := by
        rw [List.map_cons, List.nodup_cons] at hnod
        exact hnod.1
      rw [values_filter_nil (fun x hx => hwf x (by simp [hx])) hknot]
    · have hk : k ∈ m.map Prod.fst :=
        List.mem_map.mpr ⟨(k, v), hm', rfl⟩
      have hne : ¬ (e.1 = k) := by
        rw [List.map_cons, List.nodup_cons] at hnod
        intro hx
        exact hnod.1 (hx ▸ hk)
      simp only [List.map_cons, List.filter_cons]
      rw [if_neg (by simpa [hek] using hne)]
      exact ih (fun x hx => hwf x (by simp [hx]))
        ((List.nodup_cons.mp (by simpa using hnod)).2) hm'

theorem foldl_mapSet_fresh : ∀ (ts : List ParsedTemplate)
    (m : List (String × ParsedTemplate)),
    (∀ t ∈ ts, t.templatePath ∉ m.map Prod.fst) →
    (ts.map (fun t => t.templatePath)).Nodup →
    ts.foldl (fun m t => mapSet m t.templatePath t) m =
      m ++ ts.map (fun t => (t.templatePath, t)) := by
  intro ts
  induction ts with
  | nil => intro m _ _; simp
  | cons t ts ih =>
    intro m hfresh hnodup
    have hf : t.templatePath ∉ m.map Prod.fst := hfresh t (by simp)
    simp only [List.foldl_cons, mapSet_of_not_mem t hf]
    rw [ih (m ++ [(t.templatePath, t)]) ?_ ?_]
    · simp
    · intro u hu
      rw [List.map_append]
      intro hx
      rcases List.mem_append.mp hx with h1 | h1
      · exact hfresh u (by simp [hu]) h1
      · simp at h1
        rw [List.map_cons, List.nodup_cons] at hnodup
        exact hnodup.1 (h1 ▸ List.mem_map.mpr ⟨u, hu, rfl⟩)
    · exact (List.nodup_cons.mp (by simpa using hnodup)).2

/-- C3 counterexample: two templates sharing a sourcePath but with different
    scopePrefix values — so their (scopePrefix, sourcePath) identity keys
    are distinct — collide in mergeTemplates: the base entry is lost and the
    result has size one, not two, because the map is keyed by sourcePath
    alone. -/
theorem c3_counterexample :
    ((parseTemplatePath "a/[name].ts" "/scaffold" "" 0).scopePrefix,
      (parseTemplatePath "a/[name].ts" "/scaffold" "" 0).templatePath) ≠
      ((parseTemplatePath "a/[name].ts" "/nested/.scaffold" "nested" 1).scopePrefix,
       (parseTemplatePath "a/[name].ts" "/nested/.scaffold" "nested" 1).templatePath) ∧
    mergeTemplates [parseTemplatePath "a/[name].ts" "/scaffold" "" 0]
      [parseTemplatePath "a/[name].ts" "/nested/.scaffold" "nested" 1] =
      [parseTemplatePath "a/[name].ts" "/nested/.scaffold" "nested" 1] ∧
    (mergeTemplates [parseTemplatePath "a/[name].ts" "/scaffold" "" 0]
      [parseTemplatePath "a/[name].ts" "/nested/.scaffold" "nested" 1]).length
      = 1 := by
  decide

/-- C3 (amended): mergeTemplates builds a map keyed by sourcePath
    (templatePath) alone, not by the (scopePrefix, sourcePath) identity
    pair. With distinct keys within each input: inputs with disjoint
    templatePath sets merge to the base entries followed by the override
    entries (size the sum of sizes); every override entry is the single
    result entry at its templatePath; and a base entry whose templatePath is
    absent from the override is preserved unchanged. -/
theorem c3_merge_keyed_by_template_path (b o : List ParsedTemplate)
    (hb : (b.map (fun t => t.templatePath)).Nodup)
    (ho : (o.map (fun t => t.templatePath)).Nodup) :
    ((∀ k ∈ b.map (fun t => t.templatePath),
        k ∉ o.map (fun t => t.templatePath)) →
      mergeTemplates b o = b ++ o ∧
      (mergeTemplates b o).length = b.length + o.length) ∧
    (∀ t ∈ o, (mergeTemplates b o).filter
        (fun u => u.templatePath = t.templatePath) = [t]) ∧
    (∀ t ∈ b, t.templatePath ∉ o.map (fun u => u.templatePath) →
      (mergeTemplates b o).filter
        (fun u => u.templatePath = t.templatePath) = [t]) := by
  have hbase : b.foldl (fun m t => mapSet m t.templatePath t) [] =
      b.map (fun t => (t.templatePath, t)) := by
    rw [foldl_mapSet_fresh b [] (by simp) hb]
    simp
  have hbkeys : (b.map (fun t => (t.templatePath, t))).map Prod.fst =
      b.map (fun t => t.templatePath) := by
    rw [List.map_map]
    rfl
  have hbwf : ∀ e ∈ b.map (fun t => (t.templatePath, t)),
      e.2.templatePath = e.1 := by
    intro e he
    obtain ⟨u, _, rfl⟩ := List.mem_map.mp he
    rfl
  have hmrg : mergeTemplates b o =
      (o.foldl (fun m t => mapSet m t.templatePath t)
        (b.map (fun t => (t.templatePath, t)))).map Prod.snd := by
    unfold mergeTemplates
    rw [hbase]
  have hfwf : ∀ e ∈ o.foldl (fun m t => mapSet m t.templatePath t)
      (b.map (fun t => (t.templatePath, t))), e.2.templatePath = e.1 :=
    foldl_mapSet_wf o _ hbwf
  have hfnod : ((o.foldl (fun m t => mapSet m t.templatePath t)
      (b.map (fun t => (t.templatePath, t)))).map Prod.fst).Nodup :=
    foldl_mapSet_keys_nodup o _ (by rw [hbkeys]; exact hb)
  refine ⟨?_, ?_, ?_⟩
  · intro hdisj
    have hfresh : ∀ u ∈ o, u.templatePath ∉
        (b.map (fun t => (t.templatePath, t))).map Prod.fst := by
      intro u hu
      rw [hbkeys]
      intro hx
      exact hdisj u.templatePath hx (List.mem_map.mpr ⟨u, hu, rfl⟩)
    have hres : mergeTemplates b o = b ++ o := by
      rw [hmrg, foldl_mapSet_fresh o _ hfresh ho, List.map_append,
        List.map_map, List.map_map]
      have h1 : (Prod.snd ∘ fun t : ParsedTemplate => (t.templatePath, t)) =
          id := rfl
      rw [h1]
      simp
    exact ⟨hres, by rw [hres]; simp⟩
  · intro t ht
    rw [hmrg]
    exact values_filter_single hfwf hfnod
      (foldl_mapSet_mem_insert o _ t ht ho)
  · intro t ht hknot
    rw [hmrg]
    refine values_filter_single hfwf hfnod ?_
    apply foldl_mapSet_mem_preserved
    · exact List.mem_map.mpr ⟨t, ht, rfl⟩
    · intro u hu hx
      exact hknot (List.mem_map.mpr ⟨u, hu, hx⟩)

/-- Witness for the amended C3 theorem with concrete overlapping inputs. -/
theorem c3_witness :
    mergeTemplates
        [parseTemplatePath "a/[name].ts" "/scaffold" "" 0,
         parseTemplatePath "b/[name].ts" "/scaffold" "" 0]
        [parseTemplatePath "a/[name].ts" "/user" "" 0] =
      [parseTemplatePath "a/[name].ts" "/user" "" 0,
       parseTemplatePath "b/[name].ts" "/scaffold" "" 0] ∧
    (mergeTemplates
        [parseTemplatePath "a/[name].ts" "/scaffold" "" 0,
         parseTemplatePath "b/[name].ts" "/scaffold" "" 0]
        [parseTemplatePath "a/[name].ts" "/user" "" 0]).filter
      (fun u => u.templatePath =
        (parseTemplatePath "a/[name].ts" "/user" "" 0).templatePath) =
      [parseTemplatePath "a/[name].ts" "/user" "" 0] := by
  have h := (c3_merge_keyed_by_template_path
    [parseTemplatePath "a/[name].ts" "/scaffold" "" 0,
     parseTemplatePath "b/[name].ts" "/scaffold" "" 0]
    [parseTemplatePath "a/[name].ts" "/user" "" 0]
    (by decide) (by decide)).2.1
    (parseTemplatePath "a/[name].ts" "/user" "" 0) (by decide)
  exact ⟨by decide, h⟩

/-! ### Watch directories (C5) -/

theorem mem_addDir (acc : List String) (p d : String) :
    d ∈ (if acc.contains p then acc else acc ++ [p]) ↔ d ∈ acc ∨ p = d := by
  by_cases hc : (acc.contains p) = true
  · rw [if_pos hc]
    have hp : p ∈ acc := by simpa using hc
    constructor
    · exact Or.inl
    · rintro (h | rfl)
      exacts [h, hp]
  · rw [if_neg hc]
    simp [List.mem_append, eq_comm]

theorem inferWatchDirs_foldl_mem : ∀ (ts : List ParsedTemplate)
    (acc : List String) (d : String),
    (d ∈ ts.foldl (fun dirs t =>
      let p := prefixWithScope t
      if dirs.contains p then dirs else dirs ++ [p]) acc ↔
    d ∈ acc ∨ ∃ t ∈ ts, prefixWithScope t = d) := by
  intro ts
  induction ts with
  | nil => intro acc d; simp
  | cons t ts ih =>
    intro acc d
    simp only [List.foldl_cons]
    rw [ih]
    rw [show ∀ dd : String, (dd ∈ (if acc.contains (prefixWithScope t) then acc
       else acc ++ [prefixWithScope t])) = (dd ∈ acc ∨ prefixWithScope t = dd)
      from fun dd => propext (mem_addDir acc (prefixWithScope t) dd)]
    constructor
    · rintro ((h | h) | h)
      · exact Or.inl h
      · exact Or.inr ⟨t, by simp, h⟩
      · obtain ⟨u, hu, he⟩ := h
        exact Or.inr ⟨u, by simp [hu], he⟩
    · rintro (h | ⟨u, hu, he⟩)
      · exact Or.inl (Or.inl h)
      · rcases List.mem_cons.mp hu with rfl | hu'
        · exact Or.inl (Or.inr he)
        · exact Or.inr ⟨u, hu', he⟩

theorem inferWatchDirs_foldl_nodup : ∀ (ts : List ParsedTemplate)
    (acc : List String), acc.Nodup →
    (ts.foldl (fun dirs t =>
      let p := prefixWithScope t
      if dirs.contains p then dirs else dirs ++ [p]) acc).Nodup := by
  intro ts
  induction ts with
  | nil => intro acc h; simpa using h
  | cons t ts ih =>
    intro acc h
    simp only [List.foldl_cons]
    apply ih
    show (if acc.contains (prefixWithScope t) then acc
          else acc ++ [prefixWithScope t]).Nodup
    by_cases hp : prefixWithScope t ∈ acc
    · rw [if_pos (by simpa using hp)]
      exact h
    · rw [if_neg (by simpa using hp)]
      rw [List.nodup_append]
      exact ⟨h, by simp, by simpa using hp⟩

/-- C5: the derived watch-directory list holds exactly, for each template,
    its longest fully-static leading run of directory segments joined as a
    path and prefixed with the template's scopePrefix, with duplicates
    removed. -/
theorem c5_watch_dirs (ts : List ParsedTemplate) :
    (∀ d, d ∈ inferWatchDirs ts ↔ ∃ t ∈ ts, prefixWithScope t = d) ∧
    (inferWatchDirs ts).Nodup := by
  constructor
  · intro d
    unfold inferWatchDirs
    rw [inferWatchDirs_foldl_mem]
    simp
  · unfold inferWatchDirs
    exact inferWatchDirs_foldl_nodup ts [] (by simp)

/-! ### Template application (C6) -/

/-- C6: applying a template writes exactly the content of its source file in
    the store at application time — when the read succeeds, the target holds
    that content and no other path changes — and after the template source
    is overwritten, a subsequent application writes the new content: nothing
    is cached, the template record carrying no content at all. -/
theorem c6_apply_rereads (fs : Fs) (t : ParsedTemplate) (fp : String) :
    (∀ content, getTemplateContent fs t = some content →
      applyTemplate fs fp t = some (fsWrite fs fp content) ∧
      fsWrite fs fp content fp = some content ∧
      ∀ q, q ≠ fp → fsWrite fs fp content q = fs q) ∧
    (∀ newContent,
      applyTemplate
          (fsWrite fs (joinPath t.scaffoldDir t.templatePath) newContent)
          fp t =
        some (fsWrite
          (fsWrite fs (joinPath t.scaffoldDir t.templatePath) newContent)
          fp newContent)) := by
  constructor
  · intro content h
    refine ⟨?_, ?_, ?_⟩
    · unfold applyTemplate
      rw [h]
    · unfold fsWrite
      simp
    · intro q hq
      unfold fsWrite
      simp [hq]
  · intro newContent
    unfold applyTemplate getTemplateContent fsWrite
    simp

/-- Witness for C6 at a concrete store and template. -/
theorem c6_witness :
    applyTemplate
        (fun p => if p = "/scaffold/a/[name].ts" then some "content" else none)
        "a/New.ts" (parseTemplatePath "a/[name].ts" "/scaffold" "" 0) =
      some (fsWrite
        (fun p => if p = "/scaffold/a/[name].ts" then some "content" else none)
        "a/New.ts" "content") :=
  ((c6_apply_rereads
      (fun p => if p = "/scaffold/a/[name].ts" then some "content" else none)
      (parseTemplatePath "a/[name].ts" "/scaffold" "" 0) "a/New.ts").1
    "content" (by decide)).1

/-! ### Empty-file detection (C10) -/

/-- C10: isFileEmpty is true exactly when the stat succeeds and reports size
    zero, and false — not an error — whenever the stat fails, as for a
    missing file. -/
theorem c10_is_file_empty (fs : Fs) (p : String) :
    (isFileEmpty fs p = true ↔ ∃ c, fs p = some c ∧ c.length = 0) ∧
    (fs p = none → isFileEmpty fs p = false) := by
  constructor
  · unfold isFileEmpty
    cases h : fs p with
    | none => simp
    | some c => simp
  · intro h
    unfold isFileEmpty
    rw [h]

/-- Witness for C10 at a store with no files. -/
theorem c10_witness :
    isFileEmpty (fun _ => none) "src/App.vue" = false :=
  (c10_is_file_empty (fun _ => none) "src/App.vue").2 rfl

/-! ### Discovery and loading over the tree (C8) -/

/-- C8 counterexample: a scaffold directory that exists but whose readdir
    fails makes loadTemplatesFromDir propagate the scan error (none) instead
    of returning the empty template list the claim promises. -/
theorem c8_counterexample :
    existsSync (FsNode.dir true [(".scaffold", FsNode.dir false [])])
      [".scaffold"] = true ∧
    loadTemplatesFromDir (FsNode.dir true [(".scaffold", FsNode.dir false [])])
      [".scaffold"] [] "" 0 = none ∧
    loadTemplatesFromDir (FsNode.dir true [(".scaffold", FsNode.dir false [])])
      [".scaffold"] [] "" 0 ≠ some [] := by
  refine ⟨rfl, ?_, ?_⟩ <;> simp [loadTemplatesFromDir, existsSync, lookupNode,
    lookupEntry, scanDirSync]

/-- C8 (amended): a missing template-root directory contributes zero
    templates and no discovered source — loading returns the empty list
    without an error, and the discovery scan records a source for a
    directory exactly when it directly contains the scaffold folder as a
    directory, recursing (when readable) regardless; an unreadable directory
    met during discovery is skipped silently, as the concrete tree with an
    unreadable subtree hiding a nested scaffold folder shows; but a template
    root that exists and is unreadable makes loading propagate the error
    (the counterexample), unlike what the claim states. -/
theorem c8_missing_root_empty :
    (∀ (fs : FsNode) (sd root : List String) (pre : String) (d : Nat),
      existsSync fs (root ++ sd) = false →
      loadTemplatesFromDir fs sd root pre d = some []) ∧
    (∀ (sdName : String) (readable : Bool)
      (entries : List (String × FsNode)) (path : List String) (depth : Nat),
      (∀ b es, lookupEntry entries sdName ≠ some (FsNode.dir b es)) →
      discoverScan sdName (FsNode.dir readable entries) path depth =
        (if readable then discoverEntries sdName entries path depth
         else [])) ∧
    discoverScaffoldDirs
      (FsNode.dir true
        [(".scaffold", FsNode.dir true []),
         ("locked", FsNode.dir false
           [("inner", FsNode.dir true
             [(".scaffold", FsNode.dir true [])])]),
         ("src", FsNode.dir true [])])
      ".scaffold" = [⟨[".scaffold"], [], 0⟩] := by
  refine ⟨?_, ?_, ?_⟩
  · intro fs sd root pre d h
    unfold loadTemplatesFromDir
    rw [if_pos h]
  · intro sdName readable entries path depth h
    cases hl : lookupEntry entries sdName with
    | none => simp [discoverScan, hl]
    | some child =>
      cases child with
      | file => simp [discoverScan, hl]
      | dir b es => exact absurd hl (h b es)
  · decide

/-- Witness for C8's missing-root clause at a concrete tree. -/
theorem c8_witness :
    loadTemplatesFromDir (FsNode.dir true [("src", FsNode.dir true [])])
      [".scaffold"] [] "" 0 = some [] :=
  c8_missing_root_empty.1 (FsNode.dir true [("src", FsNode.dir true [])])
    [".scaffold"] [] "" 0 (by decide)

end AutoScaffold
